import Mathlib

/-!
Shallow embedding of `src/scripts/llm_diff_analyzer.py` (the graph structural
diff and diagram rendering core of the dify-diff repository).

Python's generic parsed-document values (the output of a YAML safe load) are
modelled by the inductive type `Val`: mappings become association lists kept in
insertion order, sequences become lists, scalars become the scalar
constructors.  Mappings built by the code under study always carry pairwise
distinct keys (Python dictionaries cannot hold duplicates), and lookups use the
first match.  Equality of values is structural, with mapping entries compared
in their fixed insertion order; the snapshots compared in this development
always present keys in one consistent order, where this agrees with Python's
order-insensitive dict equality.  Python operations that can raise (attribute access `.get` on a
non-dict value) are modelled in the `Except String` monad; operations the code
guards with `isinstance` checks are total.
-/

set_option maxHeartbeats 1000000
set_option maxRecDepth 100000

namespace DifyDiff

/-- Generic parsed-document value (mapping / sequence / scalar), mirroring the
dynamically typed trees the Python script manipulates. -/
inductive Val where
  | vnull : Val
  | vbool : Bool → Val
  | vint : Int → Val
  | vstr : String → Val
  | vlist : List Val → Val
  | vdict : List (String × Val) → Val

mutual

/-- Decidable equality on values (structural; written by hand because the
automatic derivation does not handle this nested inductive). -/
def valDecEq : (a b : Val) → Decidable (a = b)
  | .vnull, .vnull => isTrue rfl
  | .vnull, .vbool _ => isFalse fun h => Val.noConfusion h
  | .vnull, .vint _ => isFalse fun h => Val.noConfusion h
  | .vnull, .vstr _ => isFalse fun h => Val.noConfusion h
  | .vnull, .vlist _ => isFalse fun h => Val.noConfusion h
  | .vnull, .vdict _ => isFalse fun h => Val.noConfusion h
  | .vbool _, .vnull => isFalse fun h => Val.noConfusion h
  | .vbool x, .vbool y =>
      match Bool.decEq x y with
      | isTrue h => isTrue (by rw [h])
      | isFalse h => isFalse fun hh => h (by injection hh)
  | .vbool _, .vint _ => isFalse fun h => Val.noConfusion h
  | .vbool _, .vstr _ => isFalse fun h => Val.noConfusion h
  | .vbool _, .vlist _ => isFalse fun h => Val.noConfusion h
  | .vbool _, .vdict _ => isFalse fun h => Val.noConfusion h
  | .vint _, .vnull => isFalse fun h => Val.noConfusion h
  | .vint _, .vbool _ => isFalse fun h => Val.noConfusion h
  | .vint x, .vint y =>
      match Int.instDecidableEq x y with
      | isTrue h => isTrue (by rw [h])
      | isFalse h => isFalse fun hh => h (by injection hh)
  | .vint _, .vstr _ => isFalse fun h => Val.noConfusion h
  | .vint _, .vlist _ => isFalse fun h => Val.noConfusion h
  | .vint _, .vdict _ => isFalse fun h => Val.noConfusion h
  | .vstr _, .vnull => isFalse fun h => Val.noConfusion h
  | .vstr _, .vbool _ => isFalse fun h => Val.noConfusion h
  | .vstr _, .vint _ => isFalse fun h => Val.noConfusion h
  | .vstr x, .vstr y =>
      match String.decEq x y with
      | isTrue h => isTrue (by rw [h])
      | isFalse h => isFalse fun hh => h (by injection hh)
  | .vstr _, .vlist _ => isFalse fun h => Val.noConfusion h
  | .vstr _, .vdict _ => isFalse fun h => Val.noConfusion h
  | .vlist _, .vnull => isFalse fun h => Val.noConfusion h
  | .vlist _, .vbool _ => isFalse fun h => Val.noConfusion h
  | .vlist _, .vint _ => isFalse fun h => Val.noConfusion h
  | .vlist _, .vstr _ => isFalse fun h => Val.noConfusion h
  | .vlist x, .vlist y =>
      match valListDecEq x y with
      | isTrue h => isTrue (by rw [h])
      | isFalse h => isFalse fun hh => h (by injection hh)
  | .vlist _, .vdict _ => isFalse fun h => Val.noConfusion h
  | .vdict _, .vnull => isFalse fun h => Val.noConfusion h
  | .vdict _, .vbool _ => isFalse fun h => Val.noConfusion h
  | .vdict _, .vint _ => isFalse fun h => Val.noConfusion h
  | .vdict _, .vstr _ => isFalse fun h => Val.noConfusion h
  | .vdict _, .vlist _ => isFalse fun h => Val.noConfusion h
  | .vdict x, .vdict y =>
      match valKVsDecEq x y with
      | isTrue h => isTrue (by rw [h])
      | isFalse h => isFalse fun hh => h (by injection hh)

/-- Decidable equality on value sequences. -/
def valListDecEq : (a b : List Val) → Decidable (a = b)
  | [], [] => isTrue rfl
  | [], _ :: _ => isFalse fun h => List.noConfusion h
  | _ :: _, [] => isFalse fun h => List.noConfusion h
  | x :: xs, y :: ys =>
      match valDecEq x y, valListDecEq xs ys with
      | isTrue h1, isTrue h2 => isTrue (by rw [h1, h2])
      | isFalse h1, _ => isFalse fun h => h1 (by injection h)
      | _, isFalse h2 => isFalse fun h => h2 (by injection h)

/-- Decidable equality on mapping entry lists. -/
def valKVsDecEq : (a b : List (String × Val)) → Decidable (a = b)
  | [], [] => isTrue rfl
  | [], _ :: _ => isFalse fun h => List.noConfusion h
  | _ :: _, [] => isFalse fun h => List.noConfusion h
  | (k1, v1) :: r1, (k2, v2) :: r2 =>
      match String.decEq k1 k2, valDecEq v1 v2, valKVsDecEq r1 r2 with
      | isTrue hk, isTrue hv, isTrue hr => isTrue (by rw [hk, hv, hr])
      | isFalse hk, _, _ =>
          isFalse fun h => by
            injection h with h1 h2
            exact hk (congrArg Prod.fst h1)
      | _, isFalse hv, _ =>
          isFalse fun h => by
            injection h with h1 h2
            exact hv (congrArg Prod.snd h1)
      | _, _, isFalse hr =>
          isFalse fun h => by
            injection h with h1 h2
            exact hr h2

end

instance : DecidableEq Val := valDecEq

/-- First-match association-list lookup: `kvs[k]` for a Python dict with
pairwise distinct keys. -/
def alookup {α : Type} : List (String × α) → String → Option α
  | [], _ => none
  | (k, v) :: rest, key => if k = key then some v else alookup rest key

/-- Python truthiness of a value (`if value:`): `None`, `False`, `0`, the empty
string, the empty list and the empty dict are falsy. -/
def truthy : Val → Bool
  | .vnull => false
  | .vbool b => b
  | .vint n => n != 0
  | .vstr s => s != ""
  | .vlist xs => !xs.isEmpty
  | .vdict kvs => !kvs.isEmpty

/-- Python `str()` of a value.  Scalars are rendered exactly as Python renders
them; the container cases are placeholders, never exercised by the diff core on
the inputs studied here (node ids and edge endpoints are scalars). -/
def pyStr : Val → String
  | .vnull => "None"
  | .vbool true => "True"
  | .vbool false => "False"
  | .vint n => toString n
  | .vstr s => s
  | .vlist _ => "[...]"
  | .vdict _ => "\x7b...\x7d"

/-- `IGNORED_KEYS` from the source: cosmetic / UI-metadata mapping keys that
are stripped before equality comparison. -/
def IGNORED_KEYS : List String :=
  ["position", "positionAbsolute", "width", "height", "selected", "zIndex",
   "viewport", "sourcePosition", "targetPosition"]

mutual

/-- `strip_ignored` from the source: recursively remove every ignored mapping
key at every depth; sequences recurse elementwise, scalars pass through. -/
def strip_ignored : Val → Val
  | .vdict kvs => .vdict (stripKVs kvs)
  | .vlist xs => .vlist (stripList xs)
  | v => v

/-- Elementwise recursion of `strip_ignored` over a sequence. -/
def stripList : List Val → List Val
  | [] => []
  | x :: xs => strip_ignored x :: stripList xs

/-- Entrywise recursion of `strip_ignored` over a mapping: drop ignored keys,
recurse into kept values (the dict comprehension in the source). -/
def stripKVs : List (String × Val) → List (String × Val)
  | [] => []
  | (k, v) :: rest =>
      if k ∈ IGNORED_KEYS then stripKVs rest
      else (k, strip_ignored v) :: stripKVs rest

end

mutual

/-- `noIgnored v` holds when no ignored key occurs in `v` at any depth. -/
def noIgnored : Val → Bool
  | .vdict kvs => noIgnoredKVs kvs
  | .vlist xs => noIgnoredList xs
  | _ => true

/-- Sequence case of `noIgnored`. -/
def noIgnoredList : List Val → Bool
  | [] => true
  | x :: xs => noIgnored x && noIgnoredList xs

/-- Mapping case of `noIgnored`: every key is outside the ignored set and
every value is itself free of ignored keys. -/
def noIgnoredKVs : List (String × Val) → Bool
  | [] => true
  | (k, v) :: rest => decide (k ∉ IGNORED_KEYS) && noIgnored v && noIgnoredKVs rest

end

mutual

/-- `cosmOnly v w` holds when `v` and `w` have identical structure except
possibly for the values stored under ignored mapping keys (at any depth):
a "differs only in cosmetic fields" relation. -/
def cosmOnly : Val → Val → Bool
  | .vdict a, .vdict b => cosmOnlyKVs a b
  | .vlist a, .vlist b => cosmOnlyList a b
  | v, w => decide (v = w)

/-- Sequence case of `cosmOnly`: pointwise, same length. -/
def cosmOnlyList : List Val → List Val → Bool
  | [], [] => true
  | x :: xs, y :: ys => cosmOnly x y && cosmOnlyList xs ys
  | _, _ => false

/-- Mapping case of `cosmOnly`: same keys in the same order; values under
ignored keys are unconstrained, values under other keys are related. -/
def cosmOnlyKVs : List (String × Val) → List (String × Val) → Bool
  | [], [] => true
  | (k1, v1) :: r1, (k2, v2) :: r2 =>
      decide (k1 = k2) && (if k1 ∈ IGNORED_KEYS then true else cosmOnly v1 v2)
        && cosmOnlyKVs r1 r2
  | _, _ => false

end

/-- A mapping payload: the entry list of a Python dict. -/
abbrev Dict := List (String × Val)

/-- Python `v.get(k, default)` when `v` is known to be a dict is total; on any
other value Python raises `AttributeError`.  This helper is the raising form,
used where the source performs an unguarded `.get`. -/
def pyDictGet (v : Val) (k : String) (dflt : Val) : Except String Val :=
  match v with
  | .vdict kvs => .ok ((alookup kvs k).getD dflt)
  | _ => .error "AttributeError"

/-- `get_graph_data` from the source.  The `data` and `workflow` accesses are
guarded by `isinstance` checks (conditional expressions) and therefore total;
the `graph.get("nodes"/"edges")` accesses are NOT guarded and raise when the
value found under `workflow.graph` is not a mapping. -/
def get_graph_data (data : Val) : Except String (List Val × List Val) := do
  let workflow : Val :=
    match data with
    | .vdict kvs => (alookup kvs "workflow").getD (.vdict [])
    | _ => .vdict []
  let graph : Val :=
    match workflow with
    | .vdict kvs => (alookup kvs "graph").getD (.vdict [])
    | _ => .vdict []
  let nodes ← pyDictGet graph "nodes" (.vlist [])
  let edges ← pyDictGet graph "edges" (.vlist [])
  let nodesL : List Val := match nodes with | .vlist xs => xs | _ => []
  let edgesL : List Val := match edges with | .vlist xs => xs | _ => []
  pure (nodesL, edgesL)

/-- Replace every double-quote character by a single quote: the single-character
`label.replace` call of `node_label`, modelled characterwise. -/
def replaceQuote (s : String) : String :=
  String.mk (s.data.map fun c => if c = '"' then '\'' else c)

/-- Python `str.strip()`: drop leading and trailing whitespace. -/
def pyStrip (s : String) : String :=
  String.mk (((s.data.dropWhile Char.isWhitespace).reverse.dropWhile
    Char.isWhitespace).reverse)

/-- The guarded `node.get("data", {})` of `node_label`: the `data` attribute of
a node, or an empty mapping when absent or when the node is not a mapping. -/
def node_data (node : Val) : Val :=
  match node with
  | .vdict kvs => (alookup kvs "data").getD (.vdict [])
  | _ => .vdict []

/-- The raw label chosen by `node_label` before sanitization: `title` and
`type` combined when both are truthy, one of them alone when only one is, the
node id otherwise. -/
def label_core (node_id : String) (dkvs : List (String × Val)) : String :=
  if truthy ((alookup dkvs "title").getD .vnull) &&
      truthy ((alookup dkvs "type").getD .vnull) then
    pyStr ((alookup dkvs "title").getD .vnull) ++ "<br/>(" ++
      pyStr ((alookup dkvs "type").getD .vnull) ++ ")"
  else if truthy ((alookup dkvs "title").getD .vnull) then
    pyStr ((alookup dkvs "title").getD .vnull)
  else if truthy ((alookup dkvs "type").getD .vnull) then
    pyStr ((alookup dkvs "type").getD .vnull)
  else node_id

/-- `node_label` from the source.  The outer `node.get("data", {})` is guarded
by an `isinstance` check; the inner `data.get("title")` / `data.get("type")`
raise when the `data` attribute of a node is not a mapping.  The chosen label
is sanitized by replacing double quotes and stripping whitespace. -/
def node_label (node_id : String) (node : Val) : Except String String :=
  match node_data node with
  | .vdict dkvs => .ok (pyStrip (replaceQuote (label_core node_id dkvs)))
  | _ => .error "AttributeError"

/-- `mermaid_id` from the source: "n_" plus the id with every character
outside `[A-Za-z0-9_]` replaced by an underscore. -/
def mermaid_id (raw_id : String) : String :=
  "n_" ++ String.mk (raw_id.data.map fun c =>
    if c.isAlpha || c.isDigit || c = '_' then c else '_')

/-- `edge_key` from the source: the explicit `id` when truthy, else
`"source->target"`; the empty string for non-mapping edges. -/
def edge_key (edge : Val) : String :=
  match edge with
  | .vdict kvs =>
      let edge_id := (alookup kvs "id").getD .vnull
      if truthy edge_id then pyStr edge_id
      else
        let source := (alookup kvs "source").getD (.vstr "")
        let target := (alookup kvs "target").getD (.vstr "")
        pyStr source ++ "->" ++ pyStr target
  | _ => ""

/-- The id-indexed node map (`old_nodes` / `new_nodes` in the source): entries
in sequence order for every mapping node whose `id` attribute is not `None`,
keyed by the stringified id.  Kept as an ordered entry list; lookups take the
last match, so later duplicates win as in a Python dict comprehension. -/
def node_map (ns : List Val) : List (String × Dict) :=
  ns.filterMap fun n =>
    match n with
    | .vdict kvs =>
        match alookup kvs "id" with
        | some v => if v = .vnull then none else some (pyStr v, kvs)
        | none => none
    | _ => none

/-- The key-indexed edge map (`old_edges` / `new_edges` in the source). -/
def edge_map (es : List Val) : List (String × Dict) :=
  es.filterMap fun e =>
    match e with
    | .vdict kvs =>
        if edge_key (.vdict kvs) = "" then none else some (edge_key (.vdict kvs), kvs)
    | _ => none

/-- Last-match lookup in an id-indexed map: Python dict indexing where the
later comprehension entry overwrote the earlier one. -/
def pyGetM (m : List (String × Dict)) (k : String) : Option Dict :=
  alookup m.reverse k

/-- `m.get(k)` returning the stored mapping, or `None` when absent. -/
def pyGetV (m : List (String × Dict)) (k : String) : Val :=
  match pyGetM m k with
  | some kvs => .vdict kvs
  | none => .vnull

/-- Truthiness of an optional mapping: `None` and the empty dict are falsy. -/
def optTruthy : Option Dict → Bool
  | some kvs => !kvs.isEmpty
  | none => false

/-- The key set of an id-indexed map. -/
def keysOf (m : List (String × Dict)) : Finset String :=
  (m.map Prod.fst).toFinset

/-- Node ids participating in diffing for one snapshot's node sequence. -/
def node_idsF (ns : List Val) : Finset String := keysOf (node_map ns)

/-- Edge keys participating in diffing for one snapshot's edge sequence. -/
def edge_keysF (es : List Val) : Finset String := keysOf (edge_map es)

/-- `added_nodes`: ids present only in the after snapshot. -/
def added_nodesF (oldN newN : List Val) : Finset String :=
  node_idsF newN \ node_idsF oldN

/-- `removed_nodes`: ids present only in the before snapshot. -/
def removed_nodesF (oldN newN : List Val) : Finset String :=
  node_idsF oldN \ node_idsF newN

/-- `modified_nodes`: common ids whose canonical (cosmetic-stripped) forms
differ between the snapshots. -/
def modified_nodesF (oldN newN : List Val) : Finset String :=
  (node_idsF oldN ∩ node_idsF newN).filter fun id =>
    strip_ignored (pyGetV (node_map oldN) id) ≠ strip_ignored (pyGetV (node_map newN) id)

/-- The implicit `unchanged` class: common ids not classified modified. -/
def unchanged_nodesF (oldN newN : List Val) : Finset String :=
  (node_idsF oldN ∩ node_idsF newN) \ modified_nodesF oldN newN

/-- `added_edges`: keys present only in the after snapshot. -/
def added_edgesF (oldE newE : List Val) : Finset String :=
  edge_keysF newE \ edge_keysF oldE

/-- `removed_edges`: keys present only in the before snapshot. -/
def removed_edgesF (oldE newE : List Val) : Finset String :=
  edge_keysF oldE \ edge_keysF newE

/-- `modified_edges`: common keys whose canonical forms differ. -/
def modified_edgesF (oldE newE : List Val) : Finset String :=
  (edge_keysF oldE ∩ edge_keysF newE).filter fun k =>
    strip_ignored (pyGetV (edge_map oldE) k) ≠ strip_ignored (pyGetV (edge_map newE) k)

/-- The implicit `unchanged` edge class. -/
def unchanged_edgesF (oldE newE : List Val) : Finset String :=
  (edge_keysF oldE ∩ edge_keysF newE) \ modified_edgesF oldE newE

/-- One pass of the context scan: keys of mapping edges in a snapshot's edge
sequence whose stringified source or target lies in the watched node sets. -/
def context_scan (edgesList : List Val) (watch1 watch2 : Finset String) :
    Finset String :=
  (edgesList.filterMap fun e =>
    match e with
    | .vdict kvs =>
        let source := pyStr ((alookup kvs "source").getD (.vstr ""))
        let target := pyStr ((alookup kvs "target").getD (.vstr ""))
        if source ∈ watch1 ∨ source ∈ watch2 ∨ target ∈ watch1 ∨ target ∈ watch2 then
          if edge_key (.vdict kvs) = "" then none else some (edge_key (.vdict kvs))
        else none
    | _ => none).toFinset

/-- `context_edges` from the source: edges of the after snapshot touching an
added or modified node, plus edges of the before snapshot touching a removed
node; each scan is performed only when its watched sets are non-empty. -/
def context_edgesF (oldN oldE newN newE : List Val) : Finset String :=
  (if added_nodesF oldN newN ≠ ∅ ∨ modified_nodesF oldN newN ≠ ∅ then
     context_scan newE (added_nodesF oldN newN) (modified_nodesF oldN newN)
   else ∅) ∪
  (if removed_nodesF oldN newN ≠ ∅ then
     context_scan oldE (removed_nodesF oldN newN) (removed_nodesF oldN newN)
   else ∅)

/-- `edges_to_draw`: union of changed edge keys and context edge keys. -/
def edges_to_drawF (oldN oldE newN newE : List Val) : Finset String :=
  added_edgesF oldE newE ∪ removed_edgesF oldE newE ∪ modified_edgesF oldE newE ∪
    context_edgesF oldN oldE newN newE

/-- Lexicographic code-point comparison of character sequences: the order
Python uses to compare strings in `sorted`. -/
def charListLe : List Char → List Char → Bool
  | [], _ => true
  | _ :: _, [] => false
  | c :: cs, d :: ds =>
      if c.toNat = d.toNat then charListLe cs ds
      else decide (c.toNat < d.toNat)

/-- The sort relation on keys: Python string comparison. -/
def keyLeR (a b : String) : Prop := charListLe a.data b.data = true

instance : DecidableRel keyLeR := fun a b =>
  inferInstanceAs (Decidable (charListLe a.data b.data = true))

instance : IsTotal String keyLeR :=
  ⟨by
    intro a b
    show charListLe a.data b.data = true ∨ charListLe b.data a.data = true
    generalize a.data = la
    generalize b.data = lb
    induction la generalizing lb with
    | nil => simp [charListLe]
    | cons x xs ih =>
        cases lb with
        | nil => simp [charListLe]
        | cons y ys =>
            simp only [charListLe]
            by_cases hxy : x.toNat = y.toNat
            · simp [hxy, ih ys]
            · simp only [if_neg hxy, if_neg (Ne.symm hxy), decide_eq_true_eq]
              omega⟩

instance : IsTrans String keyLeR :=
  ⟨by
    intro a b c h1 h2
    show charListLe a.data c.data = true
    revert h1 h2
    show charListLe a.data b.data = true → charListLe b.data c.data = true →
      charListLe a.data c.data = true
    generalize a.data = la
    generalize b.data = lb
    generalize c.data = lc
    induction la generalizing lb lc with
    | nil => simp [charListLe]
    | cons x xs ih =>
        cases lb with
        | nil => simp [charListLe]
        | cons y ys =>
            cases lc with
            | nil => simp [charListLe]
            | cons z zs =>
                simp only [charListLe]
                by_cases hxy : x.toNat = y.toNat <;> by_cases hyz : y.toNat = z.toNat
                · simp only [if_pos hxy, if_pos hyz, if_pos (hxy.trans hyz)]
                  exact ih ys zs
                · have hxz : ¬x.toNat = z.toNat := by omega
                  simp only [if_pos hxy, if_neg hyz, if_neg hxz, decide_eq_true_eq]
                  intro _ h
                  omega
                · have hxz : ¬x.toNat = z.toNat := by omega
                  simp only [if_neg hxy, if_pos hyz, if_neg hxz, decide_eq_true_eq]
                  intro h _
                  omega
                · simp only [if_neg hxy, if_neg hyz, decide_eq_true_eq]
                  intro h1 h2
                  have hxz : ¬x.toNat = z.toNat := by omega
                  simp only [if_neg hxz, decide_eq_true_eq]
                  omega⟩

instance : IsAntisymm String keyLeR :=
  ⟨by
    intro a b h1 h2
    apply String.ext
    revert h1 h2
    show charListLe a.data b.data = true → charListLe b.data a.data = true →
      a.data = b.data
    generalize a.data = la
    generalize b.data = lb
    induction la generalizing lb with
    | nil =>
        cases lb with
        | nil => simp
        | cons y ys => simp [charListLe]
    | cons x xs ih =>
        cases lb with
        | nil => simp [charListLe]
        | cons y ys =>
            simp only [charListLe]
            by_cases hxy : x.toNat = y.toNat
            · simp only [if_pos hxy, if_pos hxy.symm]
              intro h1 h2
              have hx : x = y := Char.ext (UInt32.ext hxy)
              rw [hx, ih ys h1 h2]
            · simp only [if_neg hxy, if_neg (Ne.symm hxy), decide_eq_true_eq]
              intro h1 h2
              omega⟩

/-- Python `sorted` over a set of strings: the ascending lexicographic listing
of a `Finset String`.  (Implemented with structural insertion sort over the
code-point order so that concrete instances reduce definitionally.) -/
def sortKeys (s : Finset String) : List String :=
  Quotient.lift (List.insertionSort keyLeR)
    (fun a b (h : a.Perm b) =>
      List.eq_of_perm_of_sorted
        ((List.perm_insertionSort keyLeR a).trans
          (h.trans (List.perm_insertionSort keyLeR b).symm))
        (List.sorted_insertionSort keyLeR a)
        (List.sorted_insertionSort keyLeR b))
    s.val

/-- `edges_to_draw_list`: for each key in lexicographic order, resolve the edge
instance (before version for removed keys, else the truthy after version, else
the before version) and keep it when truthy. -/
def edges_to_draw_listF (oldN oldE newN newE : List Val) : List (String × Dict) :=
  (sortKeys (edges_to_drawF oldN oldE newN newE)).filterMap fun key =>
    let edge : Option Dict :=
      if key ∈ removed_edgesF oldE newE then pyGetM (edge_map oldE) key
      else
        let nv := pyGetM (edge_map newE) key
        if optTruthy nv then nv else pyGetM (edge_map oldE) key
    match edge with
    | some kvs => if kvs.isEmpty then none else some (key, kvs)
    | none => none

/-- Stringified non-`None` endpoint of an edge under key `k`, if any. -/
def optEndpoint (e : Dict) (k : String) : Option String :=
  match alookup e k with
  | some v => if v = .vnull then none else some (pyStr v)
  | none => none

/-- Endpoint collection of the edges selected for drawing. -/
def edge_endpoints (l : List (String × Dict)) : Finset String :=
  l.foldl (fun acc p =>
    let acc1 := match optEndpoint p.2 "source" with
      | some s => insert s acc
      | none => acc
    match optEndpoint p.2 "target" with
    | some t => insert t acc1
    | none => acc1) ∅

/-- `nodes_to_draw`: changed node ids plus every endpoint of a drawn edge. -/
def nodes_to_drawF (oldN oldE newN newE : List Val) : Finset String :=
  added_nodesF oldN newN ∪ removed_nodesF oldN newN ∪ modified_nodesF oldN newN ∪
    edge_endpoints (edges_to_draw_listF oldN oldE newN newE)

/-- Style class of a node id (`added` / `removed` / `modified` / none). -/
def node_class (id : String) (a r m : Finset String) : String :=
  if id ∈ a then "added" else if id ∈ r then "removed"
  else if id ∈ m then "modified" else ""

/-- One node declaration line of the diagram. -/
def node_line_str (id label : String) (a r m : Finset String) : String :=
  let base := mermaid_id id ++ "[\"" ++ label ++ "\"]"
  let c := node_class id a r m
  if c = "" then base else base ++ ":::" ++ c

/-- The node instance used for rendering an id: the after version when truthy,
else the before version. -/
def chosen_node (new_nodes old_nodes : List (String × Dict)) (id : String) :
    Option Dict :=
  let nv := pyGetM new_nodes id
  if optTruthy nv then nv else pyGetM old_nodes id

/-- An id has a backing, truthy node object in one of the snapshots. -/
def backed (new_nodes old_nodes : List (String × Dict)) (id : String) : Bool :=
  optTruthy (chosen_node new_nodes old_nodes id)

/-- The declaration line produced for a backed id (label derivation may raise
when the node's `data` attribute is not a mapping). -/
def render_line (new_nodes old_nodes : List (String × Dict)) (a r m : Finset String)
    (id : String) : Except String String :=
  match chosen_node new_nodes old_nodes id with
  | some kvs => (node_label id (.vdict kvs)).map fun label => node_line_str id label a r m
  | none => .error "skipped"

/-- Error-propagating map over a list of ids. -/
def mapExcept (f : String → Except String String) : List String → Except String (List String)
  | [] => .ok []
  | x :: xs => do
      let y ← f x
      let ys ← mapExcept f xs
      pure (y :: ys)

/-- The node-declaration loop of `build_change_diagram`: iterate the sorted
render ids, skip ids without a truthy backing node, emit one line per kept id. -/
def render_nodes (ids : List String) (new_nodes old_nodes : List (String × Dict))
    (a r m : Finset String) : Except String (List String) :=
  match ids with
  | [] => .ok []
  | id :: rest =>
      match chosen_node new_nodes old_nodes id with
      | some kvs =>
          if kvs.isEmpty then render_nodes rest new_nodes old_nodes a r m
          else do
            let label ← node_label id (.vdict kvs)
            let restLines ← render_nodes rest new_nodes old_nodes a r m
            pure (node_line_str id label a r m :: restLines)
      | none => render_nodes rest new_nodes old_nodes a r m

/-- Style class of an edge key, when changed. -/
def style_class (key : String) (a r m : Finset String) : Option String :=
  if key ∈ a then some "added" else if key ∈ r then some "removed"
  else if key ∈ m then some "modified" else none

/-- An edge is drawable when both stringified endpoints are non-empty. -/
def drawable (e : Dict) : Bool :=
  pyStr ((alookup e "source").getD (.vstr "")) != "" &&
    pyStr ((alookup e "target").getD (.vstr "")) != ""

/-- One edge declaration line of the diagram. -/
def edge_line_str (e : Dict) : String :=
  mermaid_id (pyStr ((alookup e "source").getD (.vstr ""))) ++ " --> " ++
    mermaid_id (pyStr ((alookup e "target").getD (.vstr "")))

/-- The edge-declaration loop of `build_change_diagram`: emit one declaration
per drawable edge, and record `(positional index, style class)` for changed
edges; skipped edges advance neither the declarations nor the index. -/
def render_edges (l : List (String × Dict)) (a r m : Finset String) (idx : Nat) :
    List String × List (Nat × String) :=
  match l with
  | [] => ([], [])
  | (key, e) :: rest =>
      if pyStr ((alookup e "source").getD (.vstr "")) = "" ∨
          pyStr ((alookup e "target").getD (.vstr "")) = "" then
        render_edges rest a r m idx
      else
        (edge_line_str e :: (render_edges rest a r m (idx + 1)).1,
         match style_class key a r m with
         | some c => (idx, c) :: (render_edges rest a r m (idx + 1)).2
         | none => (render_edges rest a r m (idx + 1)).2)

/-- The fixed header of every emitted diagram. -/
def diagram_header : List String :=
  ["flowchart LR",
   "classDef added fill:#D1FAE5,stroke:#10B981,color:#065F46;",
   "classDef removed fill:#FEE2E2,stroke:#EF4444,color:#7F1D1D,stroke-dasharray: 5 5;",
   "classDef modified fill:#FEF3C7,stroke:#F59E0B,color:#78350F;"]

/-- The `linkStyle` directives appended for the recorded styled edges. -/
def link_style_lines (ls : List (Nat × String)) : List String :=
  ls.filterMap fun p =>
    if p.2 = "added" then
      some ("linkStyle " ++ toString p.1 ++ " stroke:#10B981,stroke-width:2px;")
    else if p.2 = "removed" then
      some ("linkStyle " ++ toString p.1 ++ " stroke:#EF4444,stroke-width:2px,stroke-dasharray: 5 5;")
    else if p.2 = "modified" then
      some ("linkStyle " ++ toString p.1 ++ " stroke:#F59E0B,stroke-width:2px;")
    else none

/-- `build_change_diagram` after graph extraction: classification, the two
early `return None` exits, and diagram assembly. -/
def diagram_core (oldN oldE newN newE : List Val) : Except String (Option String) :=
  if added_nodesF oldN newN = ∅ ∧ removed_nodesF oldN newN = ∅ ∧
      modified_nodesF oldN newN = ∅ ∧ added_edgesF oldE newE = ∅ ∧
      removed_edgesF oldE newE = ∅ ∧ modified_edgesF oldE newE = ∅ then
    .ok none
  else if nodes_to_drawF oldN oldE newN newE = ∅ then
    .ok none
  else do
    let node_lines ← render_nodes
      (sortKeys (nodes_to_drawF oldN oldE newN newE))
      (node_map newN) (node_map oldN)
      (added_nodesF oldN newN) (removed_nodesF oldN newN) (modified_nodesF oldN newN)
    let p := render_edges (edges_to_draw_listF oldN oldE newN newE)
      (added_edgesF oldE newE) (removed_edgesF oldE newE) (modified_edgesF oldE newE) 0
    pure (some (String.intercalate "\n"
      (diagram_header ++ node_lines ++ p.1 ++ link_style_lines p.2)))

/-- `build_change_diagram` from the source: extract both snapshots, then run
the diff-and-render core.  The result is `none` exactly on the source's two
`return None` paths; exceptions raised by unguarded attribute accesses
propagate as `Except.error`. -/
def build_change_diagram (before_data after_data : Val) :
    Except String (Option String) := do
  let (old_nodes_list, old_edges_list) ← get_graph_data before_data
  let (new_nodes_list, new_edges_list) ← get_graph_data after_data
  diagram_core old_nodes_list old_edges_list new_nodes_list new_edges_list

/-- Wrap node and edge sequences in the fixed document path
`workflow.graph.{nodes,edges}`. -/
def docOf (ns es : List Val) : Val :=
  .vdict [("workflow", .vdict [("graph",
    .vdict [("nodes", .vlist ns), ("edges", .vlist es)])])]

/-- Node `A` of the scenarios (id and a one-entry data mapping). -/
def nodeA : Val := .vdict [("id", .vstr "A"), ("data", .vdict [("title", .vstr "A")])]

/-- Node `B` of the scenarios. -/
def nodeB : Val := .vdict [("id", .vstr "B"), ("data", .vdict [("title", .vstr "B")])]

/-- Node `C` of the scenarios. -/
def nodeC : Val := .vdict [("id", .vstr "C"), ("data", .vdict [("title", .vstr "C")])]

/-- Node `A` with a `position` attribute at abscissa `x`. -/
def nodeA_pos (x : Int) : Val :=
  .vdict [("id", .vstr "A"), ("data", .vdict [("title", .vstr "A")]),
    ("position", .vdict [("x", .vint x), ("y", .vint 0)])]

/-- Edge `A → B` (no explicit id, so its key is `"A->B"`). -/
def edgeAB : Val := .vdict [("source", .vstr "A"), ("target", .vstr "B")]

/-- Edge `B → C`. -/
def edgeBC : Val := .vdict [("source", .vstr "B"), ("target", .vstr "C")]

/-- Scenario B before snapshot: nodes `[A, B]`, edges `[A → B]`. -/
def scenB_before : Val := docOf [nodeA, nodeB] [edgeAB]

/-- Scenario B after snapshot: nodes `[A, B, C]`, edges `[A → B, B → C]`. -/
def scenB_after : Val := docOf [nodeA, nodeB, nodeC] [edgeAB, edgeBC]

/-- Scenario A before snapshot: node `A` at position 1. -/
def scenA_before : Val := docOf [nodeA_pos 1, nodeB] [edgeAB]

/-- Scenario A after snapshot: identical except `A`'s position. -/
def scenA_after : Val := docOf [nodeA_pos 2, nodeB] [edgeAB]

/-- Before snapshot with a single edge that has an explicit id but no
endpoints, and no nodes. -/
def idOnlyEdge_before : Val := docOf [] [.vdict [("id", .vstr "e1")]]

/-- After snapshot with no nodes and no edges. -/
def empty_after : Val := docOf [] []

/-- Before snapshot for the dangling-endpoint example: node `B`, no edges. -/
def dangling_before : Val := docOf [nodeB] []

/-- After snapshot for the dangling-endpoint example: node `B` plus edge
`B → C` whose target `C` is never declared as a node. -/
def dangling_after : Val := docOf [nodeB] [edgeBC]

/-- Document whose `workflow.graph` value is a scalar rather than a mapping. -/
def scalarGraphDoc : Val := .vdict [("workflow", .vdict [("graph", .vint 5)])]

theorem stripList_map : (xs : List Val) → stripList xs = xs.map strip_ignored
  | [] => rfl
  | x :: xs => by rw [stripList, stripList_map xs, List.map_cons]

theorem stripKVs_eq : (kvs : List (String × Val)) →
    stripKVs kvs = (kvs.filter fun p => decide (p.1 ∉ IGNORED_KEYS)).map
      fun p => (p.1, strip_ignored p.2)
  | [] => rfl
  | (k, v) :: rest => by
      by_cases h : k ∈ IGNORED_KEYS
      · simp [stripKVs, h, stripKVs_eq rest]
      · simp [stripKVs, h, stripKVs_eq rest]

mutual

theorem noIgnored_strip : (v : Val) → noIgnored (strip_ignored v) = true
  | .vnull => rfl
  | .vbool _ => rfl
  | .vint _ => rfl
  | .vstr _ => rfl
  | .vlist xs => by
      rw [strip_ignored, noIgnored]
      exact noIgnoredList_strip xs
  | .vdict kvs => by
      rw [strip_ignored, noIgnored]
      exact noIgnoredKVs_strip kvs

theorem noIgnoredList_strip : (xs : List Val) → noIgnoredList (stripList xs) = true
  | [] => rfl
  | x :: xs => by
      rw [stripList, noIgnoredList, noIgnored_strip x, noIgnoredList_strip xs]
      rfl

theorem noIgnoredKVs_strip : (kvs : List (String × Val)) →
    noIgnoredKVs (stripKVs kvs) = true
  | [] => rfl
  | (k, v) :: rest => by
      by_cases h : k ∈ IGNORED_KEYS
      · rw [stripKVs, if_pos h]
        exact noIgnoredKVs_strip rest
      · rw [stripKVs, if_neg h, noIgnoredKVs, noIgnored_strip v,
          noIgnoredKVs_strip rest]
        simp [h]

end

mutual

theorem strip_idem : (v : Val) → strip_ignored (strip_ignored v) = strip_ignored v
  | .vnull => rfl
  | .vbool _ => rfl
  | .vint _ => rfl
  | .vstr _ => rfl
  | .vlist xs => by rw [strip_ignored, strip_ignored, stripList_idem xs]
  | .vdict kvs => by rw [strip_ignored, strip_ignored, stripKVs_idem kvs]

theorem stripList_idem : (xs : List Val) → stripList (stripList xs) = stripList xs
  | [] => rfl
  | x :: xs => by rw [stripList, stripList, strip_idem x, stripList_idem xs]

theorem stripKVs_idem : (kvs : List (String × Val)) →
    stripKVs (stripKVs kvs) = stripKVs kvs
  | [] => rfl
  | (k, v) :: rest => by
      by_cases h : k ∈ IGNORED_KEYS
      · rw [stripKVs, if_pos h]
        exact stripKVs_idem rest
      · rw [stripKVs, if_neg h, stripKVs, if_neg h, strip_idem v, stripKVs_idem rest]

end

mutual

theorem cosmOnly_strip : (v w : Val) → cosmOnly v w = true →
    strip_ignored v = strip_ignored w
  | .vnull, .vnull, _ => rfl
  | .vnull, .vbool _, h => Bool.noConfusion h
  | .vnull, .vint _, h => Bool.noConfusion h
  | .vnull, .vstr _, h => Bool.noConfusion h
  | .vnull, .vlist _, h => Bool.noConfusion h
  | .vnull, .vdict _, h => Bool.noConfusion h
  | .vbool _, .vnull, h => Bool.noConfusion h
  | .vbool x, .vbool y, h =>
      congrArg strip_ignored
        (of_decide_eq_true (show decide (Val.vbool x = Val.vbool y) = true from h))
  | .vbool _, .vint _, h => Bool.noConfusion h
  | .vbool _, .vstr _, h => Bool.noConfusion h
  | .vbool _, .vlist _, h => Bool.noConfusion h
  | .vbool _, .vdict _, h => Bool.noConfusion h
  | .vint _, .vnull, h => Bool.noConfusion h
  | .vint _, .vbool _, h => Bool.noConfusion h
  | .vint x, .vint y, h =>
      congrArg strip_ignored
        (of_decide_eq_true (show decide (Val.vint x = Val.vint y) = true from h))
  | .vint _, .vstr _, h => Bool.noConfusion h
  | .vint _, .vlist _, h => Bool.noConfusion h
  | .vint _, .vdict _, h => Bool.noConfusion h
  | .vstr _, .vnull, h => Bool.noConfusion h
  | .vstr _, .vbool _, h => Bool.noConfusion h
  | .vstr _, .vint _, h => Bool.noConfusion h
  | .vstr x, .vstr y, h =>
      congrArg strip_ignored
        (of_decide_eq_true (show decide (Val.vstr x = Val.vstr y) = true from h))
  | .vstr _, .vlist _, h => Bool.noConfusion h
  | .vstr _, .vdict _, h => Bool.noConfusion h
  | .vlist _, .vnull, h => Bool.noConfusion h
  | .vlist _, .vbool _, h => Bool.noConfusion h
  | .vlist _, .vint _, h => Bool.noConfusion h
  | .vlist _, .vstr _, h => Bool.noConfusion h
  | .vlist a, .vlist b, h => by
      have h' : cosmOnlyList a b = true := h
      simp only [strip_ignored]
      rw [cosmOnlyList_strip a b h']
  | .vlist _, .vdict _, h => Bool.noConfusion h
  | .vdict _, .vnull, h => Bool.noConfusion h
  | .vdict _, .vbool _, h => Bool.noConfusion h
  | .vdict _, .vint _, h => Bool.noConfusion h
  | .vdict _, .vstr _, h => Bool.noConfusion h
  | .vdict _, .vlist _, h => Bool.noConfusion h
  | .vdict a, .vdict b, h => by
      have h' : cosmOnlyKVs a b = true := h
      simp only [strip_ignored]
      rw [cosmOnlyKVs_strip a b h']

theorem cosmOnlyList_strip : (a b : List Val) → cosmOnlyList a b = true →
    stripList a = stripList b
  | [], [], _ => rfl
  | [], _ :: _, h => Bool.noConfusion h
  | _ :: _, [], h => Bool.noConfusion h
  | x :: xs, y :: ys, h => by
      have h' : (cosmOnly x y && cosmOnlyList xs ys) = true := h
      rw [Bool.and_eq_true] at h'
      simp only [stripList]
      rw [cosmOnly_strip x y h'.1, cosmOnlyList_strip xs ys h'.2]

theorem cosmOnlyKVs_strip : (a b : List (String × Val)) → cosmOnlyKVs a b = true →
    stripKVs a = stripKVs b
  | [], [], _ => rfl
  | [], _ :: _, h => Bool.noConfusion h
  | _ :: _, [], h => Bool.noConfusion h
  | (k1, v1) :: r1, (k2, v2) :: r2, h => by
      have h' : (decide (k1 = k2) &&
          (if k1 ∈ IGNORED_KEYS then true else cosmOnly v1 v2) &&
          cosmOnlyKVs r1 r2) = true := h
      rw [Bool.and_eq_true, Bool.and_eq_true] at h'
      obtain ⟨⟨hk, hv⟩, hr⟩ := h'
      have hk' : k1 = k2 := of_decide_eq_true hk
      subst hk'
      by_cases hmem : k1 ∈ IGNORED_KEYS
      · simp only [stripKVs, if_pos hmem]
        exact cosmOnlyKVs_strip r1 r2 hr
      · rw [if_neg hmem] at hv
        simp only [stripKVs, if_neg hmem]
        rw [cosmOnly_strip v1 v2 hv, cosmOnlyKVs_strip r1 r2 hr]

end

theorem mem_of_mem_dropWhile {α : Type} (p : α → Bool) :
    (l : List α) → ∀ {x : α}, x ∈ l.dropWhile p → x ∈ l
  | [], _, h => h
  | a :: as, x, h => by
      rw [List.dropWhile_cons] at h
      by_cases hp : p a = true
      · rw [if_pos hp] at h
        exact List.mem_cons_of_mem a (mem_of_mem_dropWhile p as h)
      · rw [if_neg hp] at h
        exact h

theorem quote_free (s : String) : '"' ∉ (pyStrip (replaceQuote s)).data := by
  intro hmem
  have h1 : '"' ∈
      ((((replaceQuote s).data.dropWhile Char.isWhitespace).reverse.dropWhile
        Char.isWhitespace).reverse) := hmem
  rw [List.mem_reverse] at h1
  have h2 := mem_of_mem_dropWhile Char.isWhitespace _ h1
  rw [List.mem_reverse] at h2
  have h3 := mem_of_mem_dropWhile Char.isWhitespace _ h2
  have h4 : '"' ∈ s.data.map (fun c => if c = '"' then '\'' else c) := h3
  rw [List.mem_map] at h4
  obtain ⟨c, _, hcq⟩ := h4
  by_cases hc : c = '"'
  · rw [if_pos hc] at hcq
    exact absurd hcq (by decide)
  · rw [if_neg hc] at hcq
    exact hc hcq

theorem render_edges_spec (l : List (String × Dict)) (a r m : Finset String)
    (idx : Nat) :
    render_edges l a r m idx =
      ((l.filter fun p => drawable p.2).map fun p => edge_line_str p.2,
       ((l.filter fun p => drawable p.2).enumFrom idx).filterMap
         fun q => (style_class q.2.1 a r m).map fun c => (q.1, c)) := by
  induction l generalizing idx with
  | nil => rfl
  | cons hd tl ih =>
      obtain ⟨key, e⟩ := hd
      by_cases hsk : pyStr ((alookup e "source").getD (.vstr "")) = "" ∨
          pyStr ((alookup e "target").getD (.vstr "")) = ""
      · have hdraw : drawable e = false := by
          rcases hsk with h | h
          · simp [drawable, h]
          · simp [drawable, h]
        rw [show render_edges ((key, e) :: tl) a r m idx =
              render_edges tl a r m idx from by
            simp only [render_edges]
            rw [if_pos hsk]]
        rw [ih idx, List.filter_cons_of_neg (by simp [hdraw])]
      · have hdraw : drawable e = true := by
          rw [not_or] at hsk
          simp [drawable, hsk.1, hsk.2]
        rw [show render_edges ((key, e) :: tl) a r m idx =
              (edge_line_str e :: (render_edges tl a r m (idx + 1)).1,
               match style_class key a r m with
               | some c => (idx, c) :: (render_edges tl a r m (idx + 1)).2
               | none => (render_edges tl a r m (idx + 1)).2) from by
            simp only [render_edges]
            rw [if_neg hsk]]
        rw [ih (idx + 1), List.filter_cons_of_pos (by simp [hdraw]),
          List.map_cons, List.enumFrom_cons, List.filterMap_cons]
        cases hsc : style_class key a r m with
        | some c => simp [hsc]
        | none => simp [hsc]

theorem render_nodes_eq (ids : List String) (newM oldM : List (String × Dict))
    (a r m : Finset String) :
    render_nodes ids newM oldM a r m =
      mapExcept (render_line newM oldM a r m)
        (ids.filter fun id => backed newM oldM id) := by
  induction ids with
  | nil => rfl
  | cons id rest ih =>
      cases hc : chosen_node newM oldM id with
      | none =>
          have hb : backed newM oldM id = false := by
            simp [backed, hc, optTruthy]
          rw [show render_nodes (id :: rest) newM oldM a r m =
                render_nodes rest newM oldM a r m from by
              simp only [render_nodes, hc]]
          rw [ih, List.filter_cons_of_neg (by simp [hb])]
      | some kvs =>
          by_cases he : kvs.isEmpty
          · have hb : backed newM oldM id = false := by
              simp [backed, hc, optTruthy, he]
            rw [show render_nodes (id :: rest) newM oldM a r m =
                  render_nodes rest newM oldM a r m from by
                simp only [render_nodes, hc]
                rw [if_pos he]]
            rw [ih, List.filter_cons_of_neg (by simp [hb])]
          · have hb : backed newM oldM id = true := by
              simp [backed, hc, optTruthy, he]
            rw [show render_nodes (id :: rest) newM oldM a r m =
                  (do
                    let label ← node_label id (.vdict kvs)
                    let restLines ← render_nodes rest newM oldM a r m
                    pure (node_line_str id label a r m :: restLines)) from by
                simp only [render_nodes, hc]
                rw [if_neg he]]
            rw [List.filter_cons_of_pos (by simp [hb])]
            show _ = mapExcept _ (id :: _)
            rw [show mapExcept (render_line newM oldM a r m)
                  (id :: rest.filter fun i => backed newM oldM i) =
                (do
                  let y ← render_line newM oldM a r m id
                  let ys ← mapExcept (render_line newM oldM a r m)
                    (rest.filter fun i => backed newM oldM i)
                  pure (y :: ys)) from by
              simp only [mapExcept]]
            rw [show render_line newM oldM a r m id =
                  (node_label id (.vdict kvs)).map
                    (fun label => node_line_str id label a r m) from by
              simp only [render_line, hc]]
            cases hl : node_label id (.vdict kvs) with
            | error e => simp [Except.map, Except.bind, Bind.bind]
            | ok label =>
                simp only [Except.map, Except.bind, Bind.bind, ih]

theorem six_empty_nodes_to_draw (oldN oldE newN newE : List Val)
    (h1 : added_nodesF oldN newN = ∅) (h2 : removed_nodesF oldN newN = ∅)
    (h3 : modified_nodesF oldN newN = ∅) (h4 : added_edgesF oldE newE = ∅)
    (h5 : removed_edgesF oldE newE = ∅) (h6 : modified_edgesF oldE newE = ∅) :
    nodes_to_drawF oldN oldE newN newE = ∅ := by
  have hctx : context_edgesF oldN oldE newN newE = ∅ := by
    unfold context_edgesF
    rw [if_neg (by simp [h1, h3]), if_neg (by simp [h2])]
    simp
  have hdraw : edges_to_drawF oldN oldE newN newE = ∅ := by
    unfold edges_to_drawF
    rw [h4, h5, h6, hctx]
    simp
  have hlist : edges_to_draw_listF oldN oldE newN newE = [] := by
    unfold edges_to_draw_listF
    rw [hdraw]
    rfl
  unfold nodes_to_drawF
  rw [h1, h2, h3, hlist]
  simp [edge_endpoints]

/-- C1 (counterexample): in Scenario B (before = nodes `[A, B]` with edge
`A → B`; after = nodes `[A, B, C]` with edges `A → B`, `B → C`), the claim
asserts the render node set is `{A, B, C}` and that `A → B` is rendered as
context.  In fact `A` is not in the render node set and the key `A->B` is not
among the edges selected for drawing, because the context scan only keeps
edges touching an added or modified node. -/
theorem C1_counterexample :
    "A" ∉ nodes_to_drawF [nodeA, nodeB] [edgeAB] [nodeA, nodeB, nodeC]
      [edgeAB, edgeBC] ∧
    "A->B" ∉ edges_to_drawF [nodeA, nodeB] [edgeAB] [nodeA, nodeB, nodeC]
      [edgeAB, edgeBC] := by
  constructor
  · decide
  · decide

/-- C1 (amended): in Scenario B, `build_change_diagram` classifies added
nodes = `{C}` and added edges = `{B->C}`, but the render node set is `{B, C}`
and the only rendered edge is `B → C` (styled added); `A → B` is not rendered
because neither of its endpoints is added or modified. -/
theorem C1_theorem :
    added_nodesF [nodeA, nodeB] [nodeA, nodeB, nodeC] = {"C"} ∧
    added_edgesF [edgeAB] [edgeAB, edgeBC] = {"B->C"} ∧
    nodes_to_drawF [nodeA, nodeB] [edgeAB] [nodeA, nodeB, nodeC]
      [edgeAB, edgeBC] = {"B", "C"} ∧
    build_change_diagram scenB_before scenB_after =
      .ok (some (String.intercalate "\n" (diagram_header ++
        ["n_B[\"B\"]", "n_C[\"C\"]:::added", "n_B --> n_C",
         "linkStyle 0 stroke:#10B981,stroke-width:2px;"]))) := by
  refine ⟨by decide, by decide, by decide, rfl⟩

/-- C2 (counterexample): the claim asserts the result is absent (`None`) iff
all six change sets are empty.  With a before snapshot holding one edge that
has an explicit id but no endpoints and an empty after snapshot, the removed
edge set is non-empty yet the function still returns `None`, through its
second early exit (the render node set is empty). -/
theorem C2_counterexample :
    build_change_diagram idOnlyEdge_before empty_after = .ok none ∧
    removed_edgesF [.vdict [("id", .vstr "e1")]] [] = {"e1"} ∧
    ({"e1"} : Finset String) ≠ ∅ := by
  refine ⟨rfl, by decide, by decide⟩

/-- C2 (amended): whenever `build_change_diagram`'s core returns a value
(rather than raising), that value is `None` iff the six change sets are all
empty or the computed render node set is empty; and six empty change sets
always force an empty render node set (so the claimed direction "all empty
implies `None`" does hold). -/
theorem C2_theorem (oldN oldE newN newE : List Val) (r : Option String)
    (h : diagram_core oldN oldE newN newE = .ok r) :
    (r = none ↔
      ((added_nodesF oldN newN = ∅ ∧ removed_nodesF oldN newN = ∅ ∧
        modified_nodesF oldN newN = ∅ ∧ added_edgesF oldE newE = ∅ ∧
        removed_edgesF oldE newE = ∅ ∧ modified_edgesF oldE newE = ∅) ∨
       nodes_to_drawF oldN oldE newN newE = ∅)) := by
  unfold diagram_core at h
  split_ifs at h with h1 h2
  · injection h with h'
    subst h'
    simp [h1]
  · injection h with h'
    subst h'
    simp [h2]
  · cases hrn : render_nodes (sortKeys (nodes_to_drawF oldN oldE newN newE))
        (node_map newN) (node_map oldN) (added_nodesF oldN newN)
        (removed_nodesF oldN newN) (modified_nodesF oldN newN) with
    | error e =>
        rw [hrn] at h
        exact absurd h (by simp [Bind.bind, Except.bind])
    | ok lines =>
        rw [hrn] at h
        simp only [Bind.bind, Except.bind, pure, Except.pure] at h
        injection h with h'
        subst h'
        simp [h1, h2]

/-- C2 (witness): the amended theorem applied at the counterexample input. -/
theorem C2_witness :
    (none : Option String) = none ↔
      ((added_nodesF [] [] = ∅ ∧ removed_nodesF [] [] = ∅ ∧
        modified_nodesF [] [] = ∅ ∧
        added_edgesF [.vdict [("id", .vstr "e1")]] [] = ∅ ∧
        removed_edgesF [.vdict [("id", .vstr "e1")]] [] = ∅ ∧
        modified_edgesF [.vdict [("id", .vstr "e1")]] [] = ∅) ∨
       nodes_to_drawF [] [.vdict [("id", .vstr "e1")]] [] [] = ∅) :=
  C2_theorem [] [.vdict [("id", .vstr "e1")]] [] [] none rfl

/-- C3: the extractor is claimed never to raise, returning empty sequences for
missing or malformed parts.  The `data` and `workflow` levels are guarded, but
the `graph` level is not: when `workflow.graph` holds a scalar (or `None`),
the unguarded `.get` on it raises `AttributeError`.  The spec's guard pattern
is clearly intended at every level, so this is a code bug; both failing inputs
are exhibited here. -/
theorem C3_theorem :
    get_graph_data scalarGraphDoc = .error "AttributeError" ∧
    get_graph_data (.vdict [("workflow", .vdict [("graph", .vnull)])]) =
      .error "AttributeError" ∧
    build_change_diagram scalarGraphDoc empty_after = .error "AttributeError" := by
  refine ⟨rfl, rfl, rfl⟩

/-- C4: for every pair of snapshots, the added / removed / modified /
unchanged node classifications are pairwise disjoint and their union is the
union of the node ids of the two id-indexed node maps; the same partition
property holds for edges by edge key. -/
theorem C4_theorem (oldN newN oldE newE : List Val) :
    ((added_nodesF oldN newN ∩ removed_nodesF oldN newN = ∅) ∧
     (added_nodesF oldN newN ∩ modified_nodesF oldN newN = ∅) ∧
     (added_nodesF oldN newN ∩ unchanged_nodesF oldN newN = ∅) ∧
     (removed_nodesF oldN newN ∩ modified_nodesF oldN newN = ∅) ∧
     (removed_nodesF oldN newN ∩ unchanged_nodesF oldN newN = ∅) ∧
     (modified_nodesF oldN newN ∩ unchanged_nodesF oldN newN = ∅) ∧
     (added_nodesF oldN newN ∪ removed_nodesF oldN newN ∪
        modified_nodesF oldN newN ∪ unchanged_nodesF oldN newN =
      node_idsF oldN ∪ node_idsF newN)) ∧
    ((added_edgesF oldE newE ∩ removed_edgesF oldE newE = ∅) ∧
     (added_edgesF oldE newE ∩ modified_edgesF oldE newE = ∅) ∧
     (added_edgesF oldE newE ∩ unchanged_edgesF oldE newE = ∅) ∧
     (removed_edgesF oldE newE ∩ modified_edgesF oldE newE = ∅) ∧
     (removed_edgesF oldE newE ∩ unchanged_edgesF oldE newE = ∅) ∧
     (modified_edgesF oldE newE ∩ unchanged_edgesF oldE newE = ∅) ∧
     (added_edgesF oldE newE ∪ removed_edgesF oldE newE ∪
        modified_edgesF oldE newE ∪ unchanged_edgesF oldE newE =
      edge_keysF oldE ∪ edge_keysF newE)) := by
  constructor
  · refine ⟨?_, ?_, ?_, ?_, ?_, ?_, ?_⟩ <;>
      · ext x
        simp only [added_nodesF, removed_nodesF, modified_nodesF,
          unchanged_nodesF, Finset.mem_inter, Finset.mem_sdiff,
          Finset.mem_union, Finset.mem_filter, Finset.not_mem_empty,
          iff_false, not_and, not_not]
        tauto
  · refine ⟨?_, ?_, ?_, ?_, ?_, ?_, ?_⟩ <;>
      · ext x
        simp only [added_edgesF, removed_edgesF, modified_edgesF,
          unchanged_edgesF, Finset.mem_inter, Finset.mem_sdiff,
          Finset.mem_union, Finset.mem_filter, Finset.not_mem_empty,
          iff_false, not_and, not_not]
        tauto

/-- C5: a node present in both snapshots whose two versions differ only in
the values stored under ignored cosmetic keys (at any depth) is classified
unchanged; in particular Scenario A (only node `A`'s `position` changed)
reports no structural change. -/
theorem C5_theorem :
    (∀ (oldN newN : List Val) (id : String),
        id ∈ node_idsF oldN → id ∈ node_idsF newN →
        cosmOnly (pyGetV (node_map oldN) id) (pyGetV (node_map newN) id) = true →
        id ∈ unchanged_nodesF oldN newN) ∧
    build_change_diagram scenA_before scenA_after = .ok none := by
  constructor
  · intro oldN newN id h1 h2 hc
    have hstrip := cosmOnly_strip _ _ hc
    unfold unchanged_nodesF
    rw [Finset.mem_sdiff]
    refine ⟨Finset.mem_inter.mpr ⟨h1, h2⟩, ?_⟩
    unfold modified_nodesF
    rw [Finset.mem_filter]
    rintro ⟨-, hne⟩
    exact hne hstrip
  · rfl

/-- C5 (witness): the cosmetic-invariance part applied to Scenario A's node
`A`, whose two versions differ only in the `position` value. -/
theorem C5_witness :
    "A" ∈ unchanged_nodesF [nodeA_pos 1, nodeB] [nodeA_pos 2, nodeB] :=
  C5_theorem.1 [nodeA_pos 1, nodeB] [nodeA_pos 2, nodeB] "A"
    (by decide) (by decide) (by decide)

/-- C6: canonicalization removes every ignored key at every nesting depth,
and preserves shape otherwise: sequences map elementwise, mappings keep their
non-ignored entries in order with canonicalized values, and scalars pass
through unchanged. -/
theorem C6_theorem :
    (∀ v : Val, noIgnored (strip_ignored v) = true) ∧
    (∀ xs : List Val, strip_ignored (.vlist xs) = .vlist (xs.map strip_ignored)) ∧
    (∀ kvs : List (String × Val),
        strip_ignored (.vdict kvs) =
          .vdict ((kvs.filter fun p => decide (p.1 ∉ IGNORED_KEYS)).map
            fun p => (p.1, strip_ignored p.2))) ∧
    (∀ s, strip_ignored (.vstr s) = .vstr s) ∧
    (∀ n, strip_ignored (.vint n) = .vint n) ∧
    (∀ b, strip_ignored (.vbool b) = .vbool b) ∧
    strip_ignored .vnull = .vnull := by
  refine ⟨noIgnored_strip, ?_, ?_, fun _ => rfl, fun _ => rfl, fun _ => rfl, rfl⟩
  · intro xs
    simp only [strip_ignored]
    rw [stripList_map]
  · intro kvs
    simp only [strip_ignored]
    rw [stripKVs_eq]

/-- C7: canonicalization is idempotent: stripping an already-stripped value
returns an equal value. -/
theorem C7_theorem (v : Val) :
    strip_ignored (strip_ignored v) = strip_ignored v :=
  strip_idem v

/-- C8: the emitted label of a rendered node is `title<br/>(type)` when both
are truthy, the one truthy field alone otherwise, and the node id when
neither is truthy (all after quote replacement and whitespace stripping);
and no emitted label ever contains a double-quote character. -/
theorem C8_theorem :
    (∀ (node_id : String) (dkvs : List (String × Val)),
        node_label node_id (.vdict [("data", .vdict dkvs)]) =
          .ok (pyStrip (replaceQuote (
            if truthy ((alookup dkvs "title").getD .vnull) &&
                truthy ((alookup dkvs "type").getD .vnull) then
              pyStr ((alookup dkvs "title").getD .vnull) ++ "<br/>(" ++
                pyStr ((alookup dkvs "type").getD .vnull) ++ ")"
            else if truthy ((alookup dkvs "title").getD .vnull) then
              pyStr ((alookup dkvs "title").getD .vnull)
            else if truthy ((alookup dkvs "type").getD .vnull) then
              pyStr ((alookup dkvs "type").getD .vnull)
            else node_id)))) ∧
    (∀ (node_id : String) (node : Val) (l : String),
        node_label node_id node = .ok l → '"' ∉ l.data) := by
  constructor
  · intro node_id dkvs
    rfl
  · intro node_id node l h
    unfold node_label at h
    split at h
    · injection h with h'
      subst h'
      exact quote_free _
    · exact Except.noConfusion h

/-- C8 (witness): the quote-freedom part applied to a node whose title
contains a double quote; the emitted label carries a single quote instead. -/
theorem C8_witness :
    node_label "X" (.vdict [("data", .vdict [("title", .vstr "St\"art")])]) =
      .ok "St'art" ∧ '"' ∉ "St'art".data :=
  ⟨rfl, C8_theorem.2 "X" (.vdict [("data", .vdict [("title", .vstr "St\"art")])])
    "St'art" rfl⟩

/-- C9: the edge-declaration loop emits one declaration per drawable edge
(edges with a missing endpoint advance neither list), and the recorded
`linkStyle` entries are exactly the positional indices of the drawable edges
within the emitted declaration sequence paired with that edge's
classification; each styled edge receives exactly one entry. -/
theorem C9_theorem (l : List (String × Dict)) (a r m : Finset String) :
    (render_edges l a r m 0).1 =
      ((l.filter fun p => drawable p.2).map fun p => edge_line_str p.2) ∧
    (render_edges l a r m 0).2 =
      ((l.filter fun p => drawable p.2).enum).filterMap
        fun q => (style_class q.2.1 a r m).map fun c => (q.1, c) := by
  rw [render_edges_spec l a r m 0]
  exact ⟨rfl, rfl⟩

/-- C10: the node-declaration loop emits exactly one declaration per render
id that has a truthy backing node object in one of the two id-indexed maps,
in order; ids without a backing node are skipped.  In the concrete example,
edge `B → C` references `C` which is never declared as a node: the diagram
contains the `n_B --> n_C` edge declaration and a node declaration for `B`
only. -/
theorem C10_theorem :
    (∀ (ids : List String) (newM oldM : List (String × Dict))
        (a r m : Finset String),
        render_nodes ids newM oldM a r m =
          mapExcept (render_line newM oldM a r m)
            (ids.filter fun id => backed newM oldM id)) ∧
    build_change_diagram dangling_before dangling_after =
      .ok (some (String.intercalate "\n" (diagram_header ++
        ["n_B[\"B\"]", "n_B --> n_C",
         "linkStyle 0 stroke:#10B981,stroke-width:2px;"]))) := by
  exact ⟨render_nodes_eq, rfl⟩

end DifyDiff
